import Mathlib

/-!
The PostgreSQL connection and result set of `persistence`

A shallow embedding of `src/persistence/postgresql.cpp`.

* A `std::string` is a sequence of `char`; it is modelled by `String`, one
  `Char` standing for one `char`, so `size()` is `String.length`.
* A `PGconn*` or `PGresult*` is the address it holds, a `Nat`; `0` is `nullptr`.
* A `char*` that libpq returns is an `Option String`; `none` is the null pointer.
* libpq is not part of the repository.  Its functions are the fields of
  `Libpq`, and every definition of the source takes a `Libpq` as its first
  argument.  The calls that change something outside the program
  (`PQconnectdb`, `PQexec`, `PQfinish`, `PQclear`, writing to `std::cerr`)
  are recorded, in order, in a `World`.
* The array that `sanitize` makes on the stack needs room there; a function
  that makes it takes the room the stack has left, and returns `none` when the
  process is killed for want of it.
* The implementations of `ast::IQuery` are not part of the sources either: a
  query is the code of its `to_sql`, which may change the `World` and throw.
-/

namespace persistence

/-! ## libpq -/

/-- The `ExecStatusType` of `libpq-fe.h`, in the order of the header: exactly
the ten values the `switch` of `execute` lists. -/
inductive ExecStatusType where
  | PGRES_EMPTY_QUERY
  | PGRES_COMMAND_OK
  | PGRES_TUPLES_OK
  | PGRES_COPY_OUT
  | PGRES_COPY_IN
  | PGRES_BAD_RESPONSE
  | PGRES_NONFATAL_ERROR
  | PGRES_FATAL_ERROR
  | PGRES_COPY_BOTH
  | PGRES_SINGLE_TUPLE
  deriving DecidableEq, Repr

/-- The `ConnStatusType` of `libpq-fe.h`.  The source only compares a status
with `CONNECTION_OK`. -/
inductive ConnStatusType where
  | CONNECTION_OK
  | CONNECTION_BAD
  | CONNECTION_STARTED
  | CONNECTION_MADE
  | CONNECTION_AWAITING_RESPONSE
  | CONNECTION_AUTH_OK
  | CONNECTION_SETENV
  | CONNECTION_SSL_STARTUP
  | CONNECTION_NEEDED
  deriving DecidableEq, Repr

/-- What one call `PQescapeStringConn(conn, to, from, length, &error)` leaves
behind: the contents of `buffer` (its argument `to`), the `size_t` it
returns, and the `int` it stores in `error`. -/
structure EscapeResult where
  buffer : String
  ret : Nat
  error : Int
  deriving DecidableEq, Repr

/-- The functions of libpq that `postgresql.cpp` calls and that return a
value.  `PQnfields` and `PQntuples` return an `int` that libpq never makes
negative, so they are `Nat`. -/
structure Libpq where
  PQconnectdb : String → Nat
  PQstatus : Nat → ConnStatusType
  PQexec : Nat → String → Nat
  PQresultStatus : Nat → ExecStatusType
  PQresultErrorMessage : Nat → String
  PQnfields : Nat → Nat
  PQntuples : Nat → Nat
  PQfname : Nat → Int → Option String
  PQfnumber : Nat → String → Int
  PQgetvalue : Nat → Int → Int → Option String
  PQgetisnull : Nat → Int → Int → Int
  PQescapeStringConn : Nat → String → Nat → EscapeResult

/-- One effect of the program on what lies outside it. -/
inductive Event where
  | PQconnectdb (connstr : String)
  | PQfinish (conn : Nat)
  | PQexec (conn : Nat) (sql : String)
  | PQclear (result : Nat)
  | cerr (text : String)
  deriving DecidableEq, Repr

/-- The effects so far, oldest first. -/
abbrev World := List Event

/-- How many times `PQfinish(conn)` has been called. -/
def closes (conn : Nat) (w : World) : Nat :=
  w.count (Event.PQfinish conn)

/-- How many times `PQclear(result)` has been called. -/
def releases (result : Nat) (w : World) : Nat :=
  w.count (Event.PQclear result)

/-! ## `PostgreSQLResultSet` -/

/-- The class `PostgreSQLResultSet`: its one member is `PGresult* result`. -/
structure PostgreSQLResultSet where
  result : Nat
  deriving DecidableEq, Repr

/-- The conversion `std::string(const char*)`: undefined for a null pointer,
which is `none`. -/
def std_string (p : Option String) : Option String := p

/-- The constructor `std::string(buffer, len)`: the first `len` chars of
`buffer`. -/
def std_string_n (buffer : String) (len : Nat) : String :=
  ⟨buffer.data.take len⟩

/-- The destructor `~PostgreSQLResultSet`: `PQclear(result)`. -/
def PostgreSQLResultSet.dtor (self : PostgreSQLResultSet) (w : World) : World :=
  w ++ [Event.PQclear self.result]

/-- Method `width`: `PQnfields(result)`. -/
def PostgreSQLResultSet.width (pq : Libpq) (self : PostgreSQLResultSet) : Nat :=
  pq.PQnfields self.result

/-- Method `height`: `PQntuples(result)`. -/
def PostgreSQLResultSet.height (pq : Libpq) (self : PostgreSQLResultSet) : Nat :=
  pq.PQntuples self.result

/-- Method `is_null_at`: the `int` of `PQgetisnull` converted to `bool`. -/
def PostgreSQLResultSet.is_null_at (pq : Libpq) (self : PostgreSQLResultSet)
    (row : Nat) (col : String) : Bool :=
  let idx := pq.PQfnumber self.result col
  decide (pq.PQgetisnull self.result (Int.ofNat row) idx ≠ 0)

/-- Method `get`: `none` when `PQgetvalue` returns the null pointer, from
which no `std::string` can be built. -/
def PostgreSQLResultSet.get (pq : Libpq) (self : PostgreSQLResultSet)
    (row : Nat) (col : String) : Option String :=
  let idx := pq.PQfnumber self.result col
  std_string (pq.PQgetvalue self.result (Int.ofNat row) idx)

/-- The `for` loop of `columns`, entered with index `i` and vector `r`.
`fuel` bounds the iterations left; `columns` starts it with `n`, which is
enough.  `none` when `PQfname` returns the null pointer (or the fuel is
spent). -/
def columnsLoop (pq : Libpq) (result n : Nat) :
    Nat → Nat → List String → Option (List String)
  | fuel, i, r =>
    if i < n then
      match fuel with
      | 0 => none
      | fuel + 1 =>
        match std_string (pq.PQfname result (Int.ofNat i)) with
        | none => none
        | some name => columnsLoop pq result n fuel (i + 1) (r ++ [name])
    else some r

/-- Method `columns`. -/
def PostgreSQLResultSet.columns (pq : Libpq) (self : PostgreSQLResultSet) :
    Option (List String) :=
  let n := pq.PQnfields self.result
  columnsLoop pq self.result n n 0 []

/-- The function `make_results`. -/
def make_results (result : Nat) : PostgreSQLResultSet :=
  ⟨result⟩

/-! ## `PostgreSQLConnection` -/

/-- The struct `PostgreSQLConnection::Private`. -/
structure Private where
  conn : Nat := 0
  deriving DecidableEq, Repr

/-- The class `PostgreSQLConnection`: its member is `priv`. -/
structure PostgreSQLConnection where
  priv : Private
  deriving DecidableEq, Repr

/-- The exception `PostgreSQLError`, built from one string. -/
structure PostgreSQLError where
  message : String
  deriving DecidableEq, Repr

/-- The constructor `PostgreSQLConnection()`: a fresh `Private`. -/
def PostgreSQLConnection.new : PostgreSQLConnection :=
  ⟨{}⟩

/-- The destructor `~PostgreSQLConnection`: `PQfinish(priv->conn)`. -/
def PostgreSQLConnection.dtor (self : PostgreSQLConnection) (w : World) : World :=
  w ++ [Event.PQfinish self.priv.conn]

/-- The text `w::format("--> WARNING: {0}\n", message)` puts together. -/
def warning_text (message : String) : String :=
  "--> WARNING: " ++ message ++ "\n"

/-- Method `execute(std::string)`: the result set it returns or the
`PostgreSQLError` it throws, and the world after it. -/
def PostgreSQLConnection.execute (pq : Libpq) (self : PostgreSQLConnection)
    (sql : String) (w : World) :
    Except PostgreSQLError PostgreSQLResultSet × World :=
  let results := pq.PQexec self.priv.conn sql
  let w1 := w ++ [Event.PQexec self.priv.conn sql]
  match pq.PQresultStatus results with
  | .PGRES_EMPTY_QUERY => (.ok (make_results results), w1)
  | .PGRES_COMMAND_OK => (.ok (make_results results), w1)
  | .PGRES_TUPLES_OK => (.ok (make_results results), w1)
  | .PGRES_COPY_OUT => (.ok (make_results results), w1)
  | .PGRES_COPY_IN => (.ok (make_results results), w1)
  | .PGRES_COPY_BOTH => (.ok (make_results results), w1)
  | .PGRES_SINGLE_TUPLE => (.ok (make_results results), w1)
  | .PGRES_NONFATAL_ERROR =>
    (.ok (make_results results),
      w1 ++ [Event.cerr (warning_text (pq.PQresultErrorMessage results))])
  | .PGRES_BAD_RESPONSE => (.error ⟨pq.PQresultErrorMessage results⟩, w1)
  | .PGRES_FATAL_ERROR => (.error ⟨pq.PQresultErrorMessage results⟩, w1)

/-- The string `sanitize` returns when the escaping reports an error. -/
def UNKNOWN_ERROR : String := "<UNKNOWN ERROR>"

/-- The size `max_len` of the array `buffer` of `sanitize`, the size libpq asks
for. -/
def max_len (input : String) : Nat :=
  input.length * 2 + 1

/-- Method `sanitize`.  The array `char buffer[max_len]` is made on the stack,
which has room for `stack` more chars at that point: when the array does not
fit, the process is killed before `PQescapeStringConn` is called, which is
`none`.  Otherwise `out.buffer` is what the array holds after the call. -/
def PostgreSQLConnection.sanitize (pq : Libpq) (stack : Nat)
    (self : PostgreSQLConnection) (input : String) : Option String :=
  if stack < max_len input then none
  else
    let out := pq.PQescapeStringConn self.priv.conn input input.length
    let buffer := out.buffer
    let error := out.error
    let len := out.ret
    if error = 0 then some (std_string_n buffer len) else some UNKNOWN_ERROR

/-- What leaves a call that throws: the `PostgreSQLError` of `execute`, or any
other exception. -/
inductive Exception where
  | PostgreSQLError (e : PostgreSQLError)
  | other (what : String)
  deriving DecidableEq, Repr

/-- The class `PostgreSQLQueryRenderer`, whose header is not among the
sources.  `to_sql` builds it from `*this`: it holds the connection, and with
it libpq. -/
structure PostgreSQLQueryRenderer where
  pq : Libpq
  conn : PostgreSQLConnection

/-- The interface `ast::IQuery`: its virtual method `to_sql(renderer)`.  The
implementations are not among the sources, so the method is any code: it may
call the connection through the renderer, which changes the world, and it
returns the text or throws. -/
structure IQuery where
  to_sql : PostgreSQLQueryRenderer → World → Except Exception String × World

/-- Method `to_sql`: a renderer on this connection, handed to the query. -/
def PostgreSQLConnection.to_sql (pq : Libpq) (self : PostgreSQLConnection)
    (query : IQuery) (w : World) : Except Exception String × World :=
  let renderer : PostgreSQLQueryRenderer := ⟨pq, self⟩
  query.to_sql renderer w

/-- The static method `connect(connstr, out_error)`.  `out_error` is `none`
for a null pointer and `some s` for a slot that holds `s`.  The result is the
connection (`none` for `nullptr`), the slot afterwards, and the world. -/
def PostgreSQLConnection.connect (pq : Libpq) (connstr : String)
    (out_error : Option String) (w : World) :
    Option PostgreSQLConnection × Option String × World :=
  let conn := pq.PQconnectdb connstr
  let w1 := w ++ [Event.PQconnectdb connstr]
  if conn = 0 then
    (none, out_error.map (fun _ => "Unknown error."), w1)
  else if pq.PQstatus conn ≠ ConnStatusType.CONNECTION_OK then
    (none, out_error.map (fun _ => "Connection failed."), w1 ++ [Event.PQfinish conn])
  else
    let p := PostgreSQLConnection.new
    let p := { p with priv := { p.priv with conn := conn } }
    (some p, out_error, w1)

/-! ## libpq and the server as documented

The definitions above hold for every `Libpq`.  To run them on a concrete
input the functions of libpq are written out here as the PostgreSQL
documentation describes them, over a `Server` that says what the database
answers. -/

/-- The zero char that ends a C string. -/
def NUL : Char := Char.ofNat 0

/-- The single quote. -/
def QUOTE : Char := Char.ofNat 39

/-- The double quote. -/
def DQUOTE : Char := Char.ofNat 34

/-- The backslash. -/
def BACKSLASH : Char := Char.ofNat 92

/-- The space. -/
def SPACE : Char := Char.ofNat 32

/-- The client encodings told apart here: two in which every char is one
byte, and UTF8. -/
inductive Encoding where
  | SQL_ASCII
  | LATIN1
  | UTF8
  deriving DecidableEq, Repr

/-- The object behind a `PGresult*`: its status, its error message, the names
of its fields in order, and its rows; a cell is `none` when it is SQL NULL. -/
structure PGresult where
  resultStatus : ExecStatusType
  errMsg : String
  attDescs : List String
  tuples : List (List (Option String))
  deriving DecidableEq, Repr

/-- What lies behind libpq: the client encoding of the session, which is also
the encoding of the database, and its setting `standard_conforming_strings`,
the handle `PQconnectdb` gives
for a connection string and its status, the result `PQexec` gives for a
statement, and the object behind each result pointer (`none` for a pointer
that is no result, as `nullptr`). -/
structure Server where
  client_encoding : Encoding
  std_strings : Bool
  connectdb : String → Nat
  status : Nat → ConnStatusType
  exec : Nat → String → Nat
  result : Nat → Option PGresult

namespace documented

/-- Function `PQresultStatus`: the status of the result, `PGRES_FATAL_ERROR` for a null
pointer. -/
def PQresultStatus (res : Option PGresult) : ExecStatusType :=
  match res with
  | none => ExecStatusType.PGRES_FATAL_ERROR
  | some r => r.resultStatus

/-- Function `PQresultErrorMessage`: the message of the result, empty for a null
pointer. -/
def PQresultErrorMessage (res : Option PGresult) : String :=
  match res with
  | none => ""
  | some r => r.errMsg

/-- Function `PQnfields`: the number of fields, zero for a null pointer. -/
def PQnfields (res : Option PGresult) : Nat :=
  match res with
  | none => 0
  | some r => r.attDescs.length

/-- Function `PQntuples`: the number of rows, zero for a null pointer. -/
def PQntuples (res : Option PGresult) : Nat :=
  match res with
  | none => 0
  | some r => r.tuples.length

/-- Whether `field_num` is the number of a field of `r`. -/
def field_in_range (r : PGresult) (field_num : Int) : Bool :=
  decide (0 ≤ field_num ∧ field_num < r.attDescs.length)

/-- Whether `tup_num` is the number of a row of `r`. -/
def tuple_in_range (r : PGresult) (tup_num : Int) : Bool :=
  decide (0 ≤ tup_num ∧ tup_num < r.tuples.length)

/-- Function `PQfname`: the name of the field, the null pointer when the number is out
of range. -/
def PQfname (res : Option PGresult) (field_num : Int) : Option String :=
  match res with
  | none => none
  | some r =>
    if field_in_range r field_num then r.attDescs.get? field_num.toNat else none

/-- The cell of `r` at a row and field in range. -/
def cell (r : PGresult) (tup_num field_num : Int) : Option String :=
  ((r.tuples.get? tup_num.toNat).getD []).get? field_num.toNat |>.getD none

/-- Function `PQgetvalue`: the text of the cell, the empty string for a NULL cell, and
the null pointer when the row or field number is out of range. -/
def PQgetvalue (res : Option PGresult) (tup_num field_num : Int) : Option String :=
  match res with
  | none => none
  | some r =>
    if tuple_in_range r tup_num && field_in_range r field_num then
      some ((cell r tup_num field_num).getD "")
    else none

/-- Function `PQgetisnull`: 1 for a NULL cell and 0 for a cell with a value; 1 when the
row or field number is out of range. -/
def PQgetisnull (res : Option PGresult) (tup_num field_num : Int) : Int :=
  match res with
  | none => 1
  | some r =>
    if tuple_in_range r tup_num && field_in_range r field_num then
      if (cell r tup_num field_num).isNone then 1 else 0
    else 1

/-- Function `pg_tolower`, on ASCII. -/
def pg_tolower (c : Char) : Char := c.toLower

/-- Where the scan of a field name stands: outside double quotes, inside
them, or inside them just after a double quote. -/
inductive FoldState where
  | outside
  | inside
  | closing
  deriving DecidableEq, Repr

/-- The name `PQfnumber` looks for: "The given name is treated like an
identifier in an SQL command, that is, it is downcased unless double-quoted";
inside double quotes a doubled double quote stands for one. -/
def fold_field_name : FoldState → List Char → List Char
  | _, [] => []
  | .outside, c :: rest =>
    if c = DQUOTE then fold_field_name .inside rest
    else pg_tolower c :: fold_field_name .outside rest
  | .inside, c :: rest =>
    if c = DQUOTE then fold_field_name .closing rest
    else c :: fold_field_name .inside rest
  | .closing, c :: rest =>
    if c = DQUOTE then DQUOTE :: fold_field_name .inside rest
    else pg_tolower c :: fold_field_name .outside rest

/-- The number of the first field called `target`, counting from `i`; -1 when
there is none. -/
def first_field (target : String) : List String → Int → Int
  | [], _ => -1
  | name :: names, i => if name = target then i else first_field target names (i + 1)

/-- Function `PQfnumber`: the number of the first field whose name is the folded
`field_name`; -1 when there is none, for the empty name and for a null
pointer. -/
def PQfnumber (res : Option PGresult) (field_name : String) : Int :=
  match res with
  | none => -1
  | some r =>
    if field_name = "" then -1
    else first_field ⟨fold_field_name .outside field_name.data⟩ r.attDescs 0

/-- The macro `IS_HIGHBIT_SET`. -/
def IS_HIGHBIT_SET (c : Char) : Bool :=
  decide (128 ≤ c.toNat)

/-- Function `pg_encoding_mblen`: the number of bytes of the character that
starts with `c`; in UTF8 it is read off the lead byte. -/
def pg_encoding_mblen (encoding : Encoding) (c : Char) : Nat :=
  match encoding with
  | .UTF8 =>
    if c.toNat < 128 then 1
    else if 192 ≤ c.toNat ∧ c.toNat < 224 then 2
    else if 224 ≤ c.toNat ∧ c.toNat < 240 then 3
    else if 240 ≤ c.toNat ∧ c.toNat < 248 then 4
    else 1
  | _ => 1

/-- The macro `SQL_STR_DOUBLE`. -/
def SQL_STR_DOUBLE (c : Char) (escape_backslash : Bool) : Bool :=
  decide (c = QUOTE ∨ (c = BACKSLASH ∧ escape_backslash = true))

/-- The spaces that pad an incomplete multibyte character of which `pending`
bytes are missing, `written` chars being in the target: none once half the
target has reached `length`. -/
def pad_spaces (length : Nat) : Nat → Nat → List Char
  | 0, _ => []
  | pending + 1, written =>
    if length ≤ written / 2 then []
    else SPACE :: pad_spaces length pending (written + 1)

/-- What the escaping leaves when the source ends, at a zero or with nothing
`remaining`: no error, or the padding and the error 1 when bytes of a
multibyte character are `pending`. -/
def escape_end (length pending written : Nat) : List Char × Int :=
  if pending = 0 then ([], 0) else (pad_spaces length pending written, 1)

/-- The loop of `PQescapeStringInternal`, a byte at a time: the chars written
and the error, for a call with `length`, when `remaining` bytes are left to
read, `pending` bytes of a multibyte character are still to be copied and
`written` chars are in the target.  A byte without the high bit is doubled
when it is a single quote, or a backslash and `escape_backslash`; a byte with
the high bit starts a character of `pg_encoding_mblen` bytes, which are copied
as they are.  "If a terminating zero byte is found before length bytes are
processed, PQescapeStringConn stops at the zero". -/
def escape_chars (escape_backslash : Bool) (encoding : Encoding) (length : Nat) :
    Nat → Nat → Nat → List Char → List Char × Int
  | 0, pending, written, _ => escape_end length pending written
  | _ + 1, pending, written, [] => escape_end length pending written
  | remaining + 1, pending + 1, written, c :: source =>
    if c = NUL then escape_end length (pending + 1) written
    else
      let r := escape_chars escape_backslash encoding length remaining pending
        (written + 1) source
      (c :: r.1, r.2)
  | remaining + 1, 0, written, c :: source =>
    if c = NUL then escape_end length 0 written
    else if IS_HIGHBIT_SET c then
      let r := escape_chars escape_backslash encoding length remaining
        (pg_encoding_mblen encoding c - 1) (written + 1) source
      (c :: r.1, r.2)
    else if SQL_STR_DOUBLE c escape_backslash then
      let r := escape_chars escape_backslash encoding length remaining 0
        (written + 2) source
      (c :: c :: r.1, r.2)
    else
      let r := escape_chars escape_backslash encoding length remaining 0
        (written + 1) source
      (c :: r.1, r.2)

/-- Function `PQescapeStringConn`: the escaped chars and a terminating zero in
the buffer, their number without the zero returned, and the error; on a null
connection only the zero is written and the error is set.  Backslashes are
doubled when `standard_conforming_strings` is off. -/
def PQescapeStringConn (encoding : Encoding) (std_strings : Bool) (conn : Nat)
    (src : String) (length : Nat) : EscapeResult :=
  if conn = 0 then ⟨⟨[NUL]⟩, 0, 1⟩
  else
    let r := escape_chars (!std_strings) encoding length length 0 0 src.data
    ⟨⟨r.1 ++ [NUL]⟩, r.1.length, r.2⟩

/-- The char a backslash and `d` stand for in a string constant when
`standard_conforming_strings` is off: the letters b, f, n, r, t are control
chars, the forms that start with a digit, x, u or U are left out (`none`),
any other char stands for itself. -/
def backslash_escape (d : Char) : Option Char :=
  if d = Char.ofNat 98 then some (Char.ofNat 8)
  else if d = Char.ofNat 102 then some (Char.ofNat 12)
  else if d = Char.ofNat 110 then some (Char.ofNat 10)
  else if d = Char.ofNat 114 then some (Char.ofNat 13)
  else if d = Char.ofNat 116 then some (Char.ofNat 9)
  else if d.isDigit ∨ d = Char.ofNat 120 ∨ d = Char.ofNat 117 ∨ d = Char.ofNat 85 then none
  else some d

/-- Where the server stands in a string constant: in its text, just after a
single quote, or just after a backslash. -/
inductive ReadState where
  | text
  | quote
  | backslash
  deriving DecidableEq, Repr

/-- The text of a string constant, read from the char after its opening
quote: two single quotes are one, a single quote alone ends the constant and
must end the input, and a backslash starts an escape when
`standard_conforming_strings` is off.  `none` when this is no constant. -/
def read_constant (std_strings : Bool) : ReadState → List Char → Option (List Char)
  | .text, [] => none
  | .text, c :: rest =>
    if c = QUOTE then read_constant std_strings .quote rest
    else if c = BACKSLASH ∧ std_strings = false then
      read_constant std_strings .backslash rest
    else (read_constant std_strings .text rest).map (c :: ·)
  | .quote, [] => some []
  | .quote, c :: rest =>
    if c = QUOTE then (read_constant std_strings .text rest).map (QUOTE :: ·)
    else none
  | .backslash, [] => none
  | .backslash, d :: rest =>
    match backslash_escape d with
    | none => none
    | some e => (read_constant std_strings .text rest).map (e :: ·)

end documented

/-- The text between single quotes: `sanitize(s)` placed in a string
constant. -/
def string_constant (body : String) : String :=
  ⟨QUOTE :: (body.data ++ [QUOTE])⟩

/-- The text the server reads from a string constant; `none` when `sql` is not
one string constant. -/
def Server.read (srv : Server) (sql : String) : Option String :=
  match sql.data with
  | [] => none
  | c :: rest =>
    if c = QUOTE then
      (documented.read_constant srv.std_strings .text rest).map String.mk
    else none

/-- libpq over a server. -/
def libpq (srv : Server) : Libpq where
  PQconnectdb := srv.connectdb
  PQstatus := srv.status
  PQexec := srv.exec
  PQresultStatus := fun res => documented.PQresultStatus (srv.result res)
  PQresultErrorMessage := fun res => documented.PQresultErrorMessage (srv.result res)
  PQnfields := fun res => documented.PQnfields (srv.result res)
  PQntuples := fun res => documented.PQntuples (srv.result res)
  PQfname := fun res i => documented.PQfname (srv.result res) i
  PQfnumber := fun res name => documented.PQfnumber (srv.result res) name
  PQgetvalue := fun res row i => documented.PQgetvalue (srv.result res) row i
  PQgetisnull := fun res row i => documented.PQgetisnull (srv.result res) row i
  PQescapeStringConn :=
    documented.PQescapeStringConn srv.client_encoding srv.std_strings

/-- The C string a `std::string` is read as: its chars before the first
zero. -/
def c_str (s : String) : String :=
  ⟨s.data.takeWhile (fun c => c ≠ NUL)⟩

/-- A field name that `PQfnumber` looks up as it is written: not empty, with
no double quote and no char that `pg_tolower` changes. -/
def plain_name (name : String) : Prop :=
  name ≠ "" ∧ ∀ c ∈ name.data, c ≠ DQUOTE ∧ documented.pg_tolower c = c

instance (name : String) : Decidable (plain_name name) := by
  unfold plain_name
  exact inferInstance

/-- Whether libpq takes the chars, of which the first `pending` are owed to a
multibyte character, for whole characters: a byte with the high bit starts a
character of `pg_encoding_mblen` bytes, all of them with the high bit. -/
def whole_chars (encoding : Encoding) : Nat → List Char → Bool
  | 0, [] => true
  | _ + 1, [] => false
  | 0, c :: rest =>
    if documented.IS_HIGHBIT_SET c then
      whole_chars encoding (documented.pg_encoding_mblen encoding c - 1) rest
    else whole_chars encoding 0 rest
  | pending + 1, c :: rest =>
    documented.IS_HIGHBIT_SET c && whole_chars encoding pending rest

/-- Whether the bytes are legal UTF-8, as the server checks a statement it
receives (`pg_utf8_islegal`): `pending` bytes of a character are still owed,
the next of them between `lo` and `hi`.  A lead byte is c2 to f4; the byte
after e0, ed, f0 and f4 has a narrower range than 80 to bf. -/
def legal_utf8 : Nat → Nat → Nat → List Char → Bool
  | 0, _, _, [] => true
  | _ + 1, _, _, [] => false
  | pending + 1, lo, hi, c :: rest =>
    decide (lo ≤ c.toNat ∧ c.toNat ≤ hi) && legal_utf8 pending 128 191 rest
  | 0, _, _, c :: rest =>
    if c.toNat < 128 then legal_utf8 0 0 0 rest
    else if 194 ≤ c.toNat ∧ c.toNat ≤ 223 then legal_utf8 1 128 191 rest
    else if c.toNat = 224 then legal_utf8 2 160 191 rest
    else if c.toNat = 237 then legal_utf8 2 128 159 rest
    else if 225 ≤ c.toNat ∧ c.toNat ≤ 239 then legal_utf8 2 128 191 rest
    else if c.toNat = 240 then legal_utf8 3 144 191 rest
    else if 241 ≤ c.toNat ∧ c.toNat ≤ 243 then legal_utf8 3 128 191 rest
    else if c.toNat = 244 then legal_utf8 3 128 143 rest
    else false

/-- A string that is valid text of the encoding: any bytes in the two
single-byte encodings, legal UTF-8 in UTF8. -/
def well_encoded (encoding : Encoding) (s : String) : Prop :=
  match encoding with
  | .UTF8 => legal_utf8 0 0 0 s.data = true
  | _ => True

instance (encoding : Encoding) (s : String) : Decidable (well_encoded encoding s) := by
  unfold well_encoded
  cases encoding <;> exact inferInstance

/-! ## A server to run the code on -/

/-- The result of `SELECT 1`. -/
def demo_select_1 : PGresult :=
  ⟨.PGRES_TUPLES_OK, "", ["?column?"], [[some "1"]]⟩

/-- The result of `SELECT 1 AS FOO, 2 AS "BAR", NULL AS n`: the documentation
of `PQfname` gives its first two field names as `foo` and `BAR`. -/
def demo_foo_bar : PGresult :=
  ⟨.PGRES_TUPLES_OK, "", ["foo", "BAR", "n"], [[some "1", some "2", none]]⟩

/-- The result of the empty statement. -/
def demo_empty : PGresult :=
  ⟨.PGRES_EMPTY_QUERY, "", [], []⟩

/-- The result of a statement with a syntax error. -/
def demo_syntax_error : PGresult :=
  ⟨.PGRES_FATAL_ERROR, "ERROR:  syntax error at or near SELEC", [], []⟩

/-- A result that carries a notice. -/
def demo_notice : PGresult :=
  ⟨.PGRES_NONFATAL_ERROR, "NOTICE:  table does not exist, skipping", [], []⟩

/-- A server with one database: the connection string of `src/test.cpp` gives
the session 1, which is up; `bad://nonexistent` gives the handle 2, which is
not; for any other string libpq has no memory for a handle.  The session
answers five statements with the results 10 to 14. -/
def demo : Server where
  client_encoding := .UTF8
  std_strings := true
  connectdb := fun connstr =>
    if connstr = "postgresql://wayward_test@localhost/wayward_test" then 1
    else if connstr = "bad://nonexistent" then 2
    else 0
  status := fun conn =>
    if conn = 1 then .CONNECTION_OK else .CONNECTION_BAD
  exec := fun conn sql =>
    if conn = 1 then
      if sql = "SELECT 1" then 10
      else if sql = "SELECT 1 AS FOO, 2 AS \"BAR\", NULL AS n" then 11
      else if sql = "" then 12
      else if sql = "SELEC" then 13
      else if sql = "DROP TABLE IF EXISTS t" then 14
      else 0
    else 0
  result := fun res =>
    if res = 10 then some demo_select_1
    else if res = 11 then some demo_foo_bar
    else if res = 12 then some demo_empty
    else if res = 13 then some demo_syntax_error
    else if res = 14 then some demo_notice
    else none

/-- The connection `connect` returns for the session 1. -/
def demo_connection : PostgreSQLConnection :=
  ⟨⟨1⟩⟩

/-- The same server with `standard_conforming_strings` off. -/
def demo_legacy : Server :=
  { demo with std_strings := false }

/-- The room a stack of 8192 KiB has, the usual limit. -/
def demo_stack : Nat := 8388608

/-- A string of 8388608 chars `a`. -/
def demo_large_input : String :=
  ⟨List.replicate 8388608 (Char.ofNat 97)⟩

/-- Method `execute` calls nothing that releases a result: the calls `PQclear(result)`
are as many after it as before. -/
theorem execute_releases_nothing (pq : Libpq) (self : PostgreSQLConnection)
    (sql : String) (w : World) (result : Nat) :
    releases result (self.execute pq sql w).2 = releases result w := by
  simp only [PostgreSQLConnection.execute, releases]
  cases h : pq.PQresultStatus (pq.PQexec self.priv.conn sql) <;>
    simp [List.count_append, List.count_cons, List.count_nil]

/-- Method `execute` calls nothing that closes a session. -/
theorem execute_closes_nothing (pq : Libpq) (self : PostgreSQLConnection)
    (sql : String) (w : World) (conn : Nat) :
    closes conn (self.execute pq sql w).2 = closes conn w := by
  simp only [PostgreSQLConnection.execute, closes]
  cases h : pq.PQresultStatus (pq.PQexec self.priv.conn sql) <;>
    simp [List.count_append, List.count_cons, List.count_nil]

/-- C1: `execute(sql)` fails exactly when the status of the result is
bad-response or fatal-error, the error then carries the error message of the
result; for each of the other eight statuses it returns the result set that
wraps the result `PQexec` produced. -/
theorem execute_outcome_by_status (pq : Libpq) (self : PostgreSQLConnection)
    (sql : String) (w : World) :
    ((∃ e, (self.execute pq sql w).1 = Except.error e) ↔
      (pq.PQresultStatus (pq.PQexec self.priv.conn sql) = .PGRES_BAD_RESPONSE ∨
       pq.PQresultStatus (pq.PQexec self.priv.conn sql) = .PGRES_FATAL_ERROR)) ∧
    ((pq.PQresultStatus (pq.PQexec self.priv.conn sql) = .PGRES_BAD_RESPONSE ∨
      pq.PQresultStatus (pq.PQexec self.priv.conn sql) = .PGRES_FATAL_ERROR) →
      (self.execute pq sql w).1 =
        Except.error ⟨pq.PQresultErrorMessage (pq.PQexec self.priv.conn sql)⟩) ∧
    (pq.PQresultStatus (pq.PQexec self.priv.conn sql) ∈
        [ExecStatusType.PGRES_EMPTY_QUERY, .PGRES_COMMAND_OK, .PGRES_TUPLES_OK,
         .PGRES_COPY_OUT, .PGRES_COPY_IN, .PGRES_COPY_BOTH, .PGRES_SINGLE_TUPLE,
         .PGRES_NONFATAL_ERROR] →
      (self.execute pq sql w).1 =
        Except.ok (make_results (pq.PQexec self.priv.conn sql)) ∧
      (make_results (pq.PQexec self.priv.conn sql)).result =
        pq.PQexec self.priv.conn sql) := by
  simp only [PostgreSQLConnection.execute]
  cases h : pq.PQresultStatus (pq.PQexec self.priv.conn sql) <;> simp [make_results]

/-- C1 on the demo server: a syntax error fails with the message of the
server, `SELECT 1` and a statement with a notice return their results. -/
theorem execute_outcome_by_status_witness :
    (demo_connection.execute (libpq demo) "SELEC" []).1 =
      Except.error ⟨"ERROR:  syntax error at or near SELEC"⟩ ∧
    (demo_connection.execute (libpq demo) "SELECT 1" []).1 = Except.ok ⟨10⟩ ∧
    (demo_connection.execute (libpq demo) "DROP TABLE IF EXISTS t" []).1 =
      Except.ok ⟨14⟩ :=
  ⟨((execute_outcome_by_status (libpq demo) demo_connection "SELEC" []).2.1
      (Or.inr (by decide))),
   ((execute_outcome_by_status (libpq demo) demo_connection "SELECT 1" []).2.2
      (by decide)).1,
   ((execute_outcome_by_status (libpq demo) demo_connection
      "DROP TABLE IF EXISTS t" []).2.2 (by decide)).1⟩

/-! ## `sanitize` -/

/-- Method `sanitize` is killed exactly when the array does not fit the
stack. -/
theorem sanitize_killed_iff (pq : Libpq) (stack : Nat)
    (self : PostgreSQLConnection) (input : String) :
    self.sanitize pq stack input = none ↔ stack < max_len input := by
  unfold PostgreSQLConnection.sanitize
  by_cases h : stack < max_len input
  · simp [h]
  · by_cases he : (pq.PQescapeStringConn self.priv.conn input input.length).error = 0 <;>
      simp [h, he]

/-- When the array fits the stack, `sanitize` returns: the first `len` chars of
the buffer when the escaping routine reports no error, `len` being what the
routine returned, and `<UNKNOWN ERROR>` when it reports one. -/
theorem sanitize_returns (pq : Libpq) (stack : Nat) (self : PostgreSQLConnection)
    (input : String) (hfit : max_len input ≤ stack) :
    ((pq.PQescapeStringConn self.priv.conn input input.length).error = 0 →
      self.sanitize pq stack input =
        some (std_string_n
          (pq.PQescapeStringConn self.priv.conn input input.length).buffer
          (pq.PQescapeStringConn self.priv.conn input input.length).ret)) ∧
    ((pq.PQescapeStringConn self.priv.conn input input.length).error ≠ 0 →
      self.sanitize pq stack input = some "<UNKNOWN ERROR>") := by
  have h : ¬ stack < max_len input := by omega
  unfold PostgreSQLConnection.sanitize
  constructor
  · intro he
    simp [h, he]
  · intro he
    simp [h, he, UNKNOWN_ERROR]

/-- The size of the array, written out. -/
theorem max_len_eq (input : String) : max_len input = input.length * 2 + 1 :=
  rfl

/-- The large input has 8388608 chars. -/
theorem demo_large_input_length : demo_large_input.length = 8388608 := by
  show (List.replicate 8388608 (Char.ofNat 97)).length = 8388608
  exact List.length_replicate _ _

/-- The array for the large input takes 16777217 chars. -/
theorem demo_large_input_max_len : max_len demo_large_input = 16777217 := by
  rw [max_len_eq, demo_large_input_length]

/-- C2 at the failing input: for a string of 8388608 chars the array
`buffer` takes 16777217 chars, a stack of 8192 KiB has 8388608, and `sanitize`
returns no string: the process is killed before the escaping routine is
called. -/
theorem sanitize_large_input_killed :
    demo_large_input.length = 8388608 ∧
    max_len demo_large_input = 16777217 ∧
    demo_stack = 8388608 ∧
    demo_connection.sanitize (libpq demo) demo_stack demo_large_input = none := by
  refine ⟨demo_large_input_length, demo_large_input_max_len, rfl, ?_⟩
  rw [sanitize_killed_iff, demo_large_input_max_len]
  unfold demo_stack
  omega

/-! ## `connect` and the life of a session handle -/

/-- C7: a handle `connect` obtains is closed exactly once.  When its status is
not `CONNECTION_OK`, `connect` returns no connection and has called `PQfinish`
on it once.  When it is, `connect` has not closed it, the connection returned
holds it, and whatever statements the connection then executes, its destructor
brings the number of `PQfinish` calls on the handle to one more than before
`connect`. -/
theorem connect_handle_closed_once (pq : Libpq) (connstr : String)
    (out_error : Option String) (w : World) (sqls : List String)
    (h : pq.PQconnectdb connstr ≠ 0) :
    match (PostgreSQLConnection.connect pq connstr out_error w).1 with
    | none =>
      pq.PQstatus (pq.PQconnectdb connstr) ≠ .CONNECTION_OK ∧
      closes (pq.PQconnectdb connstr)
        (PostgreSQLConnection.connect pq connstr out_error w).2.2 =
        closes (pq.PQconnectdb connstr) w + 1
    | some c =>
      pq.PQstatus (pq.PQconnectdb connstr) = .CONNECTION_OK ∧
      c.priv.conn = pq.PQconnectdb connstr ∧
      closes (pq.PQconnectdb connstr)
        (PostgreSQLConnection.connect pq connstr out_error w).2.2 =
        closes (pq.PQconnectdb connstr) w ∧
      closes (pq.PQconnectdb connstr)
        (sqls.foldl (fun w1 sql => (c.execute pq sql w1).2)
          (PostgreSQLConnection.connect pq connstr out_error w).2.2) =
        closes (pq.PQconnectdb connstr) w ∧
      closes (pq.PQconnectdb connstr)
        (c.dtor (sqls.foldl (fun w1 sql => (c.execute pq sql w1).2)
          (PostgreSQLConnection.connect pq connstr out_error w).2.2)) =
        closes (pq.PQconnectdb connstr) w + 1 := by
  have hfold : ∀ (c : PostgreSQLConnection) (l : List String) (w0 : World),
      closes (pq.PQconnectdb connstr)
        (l.foldl (fun w1 sql => (c.execute pq sql w1).2) w0) =
      closes (pq.PQconnectdb connstr) w0 := by
    intro c l
    induction l with
    | nil => intro w0; rfl
    | cons sql l ih =>
      intro w0
      rw [List.foldl_cons, ih, execute_closes_nothing]
  simp only [PostgreSQLConnection.connect, PostgreSQLConnection.new]
  by_cases h1 : pq.PQstatus (pq.PQconnectdb connstr) = .CONNECTION_OK
  · simp only [h, h1, if_false, ne_eq, not_true_eq_false]
    refine ⟨trivial, trivial, ?_, ?_, ?_⟩
    · simp [closes, List.count_append, List.count_cons, List.count_nil]
    · rw [hfold]
      simp [closes, List.count_append, List.count_cons, List.count_nil]
    · simp only [PostgreSQLConnection.dtor]
      have := hfold ⟨⟨pq.PQconnectdb connstr⟩⟩ sqls (w ++ [Event.PQconnectdb connstr])
      simp only [closes] at this ⊢
      rw [List.count_append, this]
      simp [List.count_append, List.count_cons, List.count_nil]
  · simp only [h, h1, if_false, ne_eq, not_false_eq_true, if_true]
    refine ⟨trivial, ?_⟩
    simp [closes, List.count_append, List.count_cons, List.count_nil]

/-- C7 on the demo server: the handle 2 of `bad://nonexistent` is closed inside
`connect`. -/
theorem connect_handle_closed_once_witness :
    match (PostgreSQLConnection.connect (libpq demo) "bad://nonexistent" none []).1 with
    | none =>
      (libpq demo).PQstatus ((libpq demo).PQconnectdb "bad://nonexistent") ≠
        .CONNECTION_OK ∧
      closes ((libpq demo).PQconnectdb "bad://nonexistent")
        (PostgreSQLConnection.connect (libpq demo) "bad://nonexistent" none []).2.2 =
        closes ((libpq demo).PQconnectdb "bad://nonexistent") [] + 1
    | some c =>
      (libpq demo).PQstatus ((libpq demo).PQconnectdb "bad://nonexistent") =
        .CONNECTION_OK ∧
      c.priv.conn = (libpq demo).PQconnectdb "bad://nonexistent" ∧
      closes ((libpq demo).PQconnectdb "bad://nonexistent")
        (PostgreSQLConnection.connect (libpq demo) "bad://nonexistent" none []).2.2 =
        closes ((libpq demo).PQconnectdb "bad://nonexistent") [] ∧
      closes ((libpq demo).PQconnectdb "bad://nonexistent")
        (["SELECT 1"].foldl (fun w1 sql => (c.execute (libpq demo) sql w1).2)
          (PostgreSQLConnection.connect (libpq demo) "bad://nonexistent" none []).2.2) =
        closes ((libpq demo).PQconnectdb "bad://nonexistent") [] ∧
      closes ((libpq demo).PQconnectdb "bad://nonexistent")
        (c.dtor (["SELECT 1"].foldl (fun w1 sql => (c.execute (libpq demo) sql w1).2)
          (PostgreSQLConnection.connect (libpq demo) "bad://nonexistent" none []).2.2)) =
        closes ((libpq demo).PQconnectdb "bad://nonexistent") [] + 1 :=
  connect_handle_closed_once (libpq demo) "bad://nonexistent" none [] ["SELECT 1"]
    (by decide)

/-! ## `execute(const ast::IQuery&)` -/

/-- A result set that `execute` returned releases its buffer once, in its
destructor. -/
theorem result_set_released_once (pq : Libpq) (self : PostgreSQLConnection)
    (sql : String) (w : World) (rs : PostgreSQLResultSet)
    (h : (self.execute pq sql w).1 = Except.ok rs) :
    rs.result = pq.PQexec self.priv.conn sql ∧
    releases rs.result (self.execute pq sql w).2 = releases rs.result w ∧
    releases rs.result (rs.dtor (self.execute pq sql w).2) =
      releases rs.result w + 1 := by
  refine ⟨?_, execute_releases_nothing pq self sql w rs.result, ?_⟩
  · simp only [PostgreSQLConnection.execute] at h
    cases hs : pq.PQresultStatus (pq.PQexec self.priv.conn sql) <;>
      simp [hs, make_results] at h <;> simp [← h]
  · simp only [PostgreSQLResultSet.dtor, releases]
    rw [List.count_append]
    have := execute_releases_nothing pq self sql w rs.result
    simp only [releases] at this
    rw [this]
    simp [List.count_cons, List.count_nil]

/-- On the error path, when the status is bad-response or fatal-error,
`execute` throws and `PQclear` has not been called on the result it
obtained. -/
theorem execute_error_keeps_result (pq : Libpq) (self : PostgreSQLConnection)
    (sql : String) (w : World)
    (h : pq.PQresultStatus (pq.PQexec self.priv.conn sql) = .PGRES_BAD_RESPONSE ∨
      pq.PQresultStatus (pq.PQexec self.priv.conn sql) = .PGRES_FATAL_ERROR) :
    (self.execute pq sql w).1 =
      Except.error ⟨pq.PQresultErrorMessage (pq.PQexec self.priv.conn sql)⟩ ∧
    releases (pq.PQexec self.priv.conn sql) (self.execute pq sql w).2 =
      releases (pq.PQexec self.priv.conn sql) w := by
  refine ⟨?_, execute_releases_nothing pq self sql w _⟩
  simp only [PostgreSQLConnection.execute]
  rcases h with h | h <;> simp [h]

/-- C10 on the demo server: the statement `SELEC` fails and its result, 13, is
never released. -/
theorem execute_syntax_error_leaks :
    (demo_connection.execute (libpq demo) "SELEC" []).1 =
      Except.error ⟨"ERROR:  syntax error at or near SELEC"⟩ ∧
    (libpq demo).PQexec 1 "SELEC" = 13 ∧
    releases 13 (demo_connection.execute (libpq demo) "SELEC" []).2 = 0 :=
  ⟨rfl, by decide, by decide⟩

/-! ## The result set -/

/-- The loop of `columns` runs to its end when `PQfname` has a name for every
field: it keeps what `r` holds and appends the names of the fields from `i`
on, in order. -/
theorem columnsLoop_spec (pq : Libpq) (result n : Nat)
    (hname : ∀ j, j < n → ∃ name, pq.PQfname result (Int.ofNat j) = some name) :
    ∀ (fuel i : Nat) (r : List String), n ≤ i + fuel → i ≤ n →
      ∃ cols, columnsLoop pq result n fuel i r = some cols ∧
        cols.length = r.length + (n - i) ∧
        (∀ j, j < r.length → cols[j]? = r[j]?) ∧
        ∀ j, i ≤ j → j < n →
          cols[r.length + (j - i)]? = pq.PQfname result (Int.ofNat j) := by
  intro fuel
  induction fuel with
  | zero =>
    intro i r hfuel hin
    have hi : i = n := by omega
    subst hi
    refine ⟨r, ?_, by simp, fun _ _ => rfl, fun j h1 h2 => absurd h2 (by omega)⟩
    unfold columnsLoop
    simp
  | succ fuel ih =>
    intro i r hfuel hin
    by_cases hi : i < n
    · obtain ⟨name, hn⟩ := hname i hi
      obtain ⟨cols, hcols, hlen, hkeep, hnew⟩ :=
        ih (i + 1) (r ++ [name]) (by omega) (by omega)
      refine ⟨cols, ?_, ?_, ?_, ?_⟩
      · unfold columnsLoop
        simp only [hi, if_true, std_string, hn]
        exact hcols
      · rw [hlen, List.length_append, List.length_singleton]
        omega
      · intro j hj
        rw [hkeep j (by rw [List.length_append]; omega)]
        exact List.getElem?_append_left hj
      · intro j hij hjn
        by_cases hji : j = i
        · subst hji
          have := hkeep r.length (by rw [List.length_append, List.length_singleton]; omega)
          rw [Nat.sub_self, Nat.add_zero, this, hn]
          simp
        · have := hnew j (by omega) hjn
          rw [List.length_append, List.length_singleton] at this
          rw [← this]
          congr 1
          omega
    · have hi2 : i = n := by omega
      subst hi2
      refine ⟨r, ?_, by simp, fun _ _ => rfl, fun j h1 h2 => absurd h2 (by omega)⟩
      unfold columnsLoop
      simp

/-- C4: when libpq has a name for every field of the result, `columns()`
returns a sequence of exactly `width()` names whose `i`-th entry, for every
`i < width()`, is the name `PQfname` gives for field `i`. -/
theorem columns_are_field_names (pq : Libpq) (rs : PostgreSQLResultSet)
    (h : ∀ i, i < rs.width pq → pq.PQfname rs.result (Int.ofNat i) ≠ none) :
    ∃ cols, rs.columns pq = some cols ∧ cols.length = rs.width pq ∧
      ∀ i, i < rs.width pq → cols[i]? = pq.PQfname rs.result (Int.ofNat i) := by
  have hname : ∀ j, j < pq.PQnfields rs.result →
      ∃ name, pq.PQfname rs.result (Int.ofNat j) = some name := by
    intro j hj
    exact Option.ne_none_iff_exists'.mp (h j hj)
  obtain ⟨cols, hcols, hlen, _, hnew⟩ :=
    columnsLoop_spec pq rs.result (pq.PQnfields rs.result) hname
      (pq.PQnfields rs.result) 0 [] (by omega) (by omega)
  refine ⟨cols, hcols, by simpa using hlen, ?_⟩
  intro i hi
  simpa using hnew i (by omega) hi

/-- C4 on the demo server: the three names of the result 11, in order. -/
theorem columns_are_field_names_witness :
    ∃ cols, PostgreSQLResultSet.columns (libpq demo) ⟨11⟩ = some cols ∧
      cols.length = PostgreSQLResultSet.width (libpq demo) ⟨11⟩ ∧
      ∀ i, i < PostgreSQLResultSet.width (libpq demo) ⟨11⟩ →
        cols[i]? = (libpq demo).PQfname 11 (Int.ofNat i) :=
  columns_are_field_names (libpq demo) ⟨11⟩ (by decide)

/-- A name without double quotes and upper-case letters is folded to
itself. -/
theorem fold_field_name_plain (l : List Char)
    (h : ∀ c ∈ l, c ≠ DQUOTE ∧ documented.pg_tolower c = c) :
    documented.fold_field_name .outside l = l := by
  induction l with
  | nil => rfl
  | cons c rest ih =>
    have hc := h c (List.mem_cons_self c rest)
    have hrest := ih (fun d hd => h d (List.mem_cons_of_mem c hd))
    simp [documented.fold_field_name, hc.1, hc.2, hrest]

/-- Among pairwise distinct names the first field called `names[i]` is
field `i`. -/
theorem first_field_nodup (target : String) :
    ∀ (names : List String) (i : Nat) (k : Int), names.Nodup →
      names[i]? = some target →
      documented.first_field target names k = k + i := by
  intro names
  induction names with
  | nil => intro i k _ h; simp at h
  | cons name names ih =>
    intro i k hd h
    cases i with
    | zero =>
      simp at h
      simp [documented.first_field, h]
    | succ i =>
      simp only [List.getElem?_cons_succ] at h
      have hmem : target ∈ names := List.getElem?_mem h
      have hne : name ≠ target := by
        intro heq
        subst heq
        exact (List.nodup_cons.mp hd).1 hmem
      simp only [documented.first_field, hne, if_false]
      rw [ih i (k + 1) (List.nodup_cons.mp hd).2 h]
      push_cast
      ring

/-- Over libpq as documented, `columns()` returns the field names of the
result. -/
theorem columns_libpq (srv : Server) (rs : PostgreSQLResultSet) (r : PGresult)
    (hr : srv.result rs.result = some r) :
    rs.columns (libpq srv) = some r.attDescs := by
  have hname : ∀ j, j < (libpq srv).PQnfields rs.result →
      ∃ name, (libpq srv).PQfname rs.result (Int.ofNat j) = some name := by
    intro j hj
    simp only [libpq, hr, documented.PQnfields] at hj
    refine ⟨r.attDescs[j], ?_⟩
    simp [libpq, hr, documented.PQfname, documented.field_in_range, hj,
      List.getElem?_eq_getElem hj]
  obtain ⟨cols, hcols, hlen, _, hnew⟩ :=
    columnsLoop_spec (libpq srv) rs.result ((libpq srv).PQnfields rs.result) hname
      ((libpq srv).PQnfields rs.result) 0 [] (by omega) (by omega)
  have hn : (libpq srv).PQnfields rs.result = r.attDescs.length := by
    simp [libpq, hr, documented.PQnfields]
  have heq : cols = r.attDescs := by
    apply List.ext_getElem?
    intro j
    by_cases hj : j < r.attDescs.length
    · have := hnew j (by omega) (by omega)
      simp only [List.length_nil, Nat.zero_add, Nat.sub_zero] at this
      rw [this]
      simp [libpq, hr, documented.PQfname, documented.field_in_range, hj]
    · simp only [List.length_nil, Nat.zero_add, Nat.sub_zero] at hlen
      rw [List.getElem?_eq_none (by omega), List.getElem?_eq_none (by omega)]
  rw [← heq]
  exact hcols

/-- The names `get` and `is_null_at` can address: over libpq as documented, for
every result set whose column names are pairwise distinct, every
`row < height()` and every `i < width()` whose name `columns()[i]` is plain
(not empty, no double quote, no upper-case letter), `get(row, columns()[i])`
returns the text `PQgetvalue` gives for the
cell at `(row, i)` and `is_null_at(row, columns()[i])` reports the flag
`PQgetisnull` gives for that cell: both resolve the name to the index `i`. -/
theorem get_resolves_plain_name (srv : Server) (rs : PostgreSQLResultSet)
    (cols : List String) (row i : Nat) (name : String)
    (hc : rs.columns (libpq srv) = some cols) (hd : cols.Nodup)
    (hrow : row < rs.height (libpq srv)) (hi : i < rs.width (libpq srv))
    (hname : cols[i]? = some name) (hplain : plain_name name) :
    (libpq srv).PQfnumber rs.result name = Int.ofNat i ∧
    rs.get (libpq srv) row name =
      (libpq srv).PQgetvalue rs.result (Int.ofNat row) (Int.ofNat i) ∧
    (rs.get (libpq srv) row name).isSome = true ∧
    rs.is_null_at (libpq srv) row name =
      decide ((libpq srv).PQgetisnull rs.result (Int.ofNat row) (Int.ofNat i) ≠ 0) := by
  cases hr : srv.result rs.result with
  | none =>
    simp [PostgreSQLResultSet.width, libpq, hr, documented.PQnfields] at hi
  | some r =>
    have hcols := columns_libpq srv rs r hr
    rw [hc] at hcols
    have hcols2 : r.attDescs = cols := (Option.some.inj hcols).symm
    rw [← hcols2] at hd hname
    have hnum : (libpq srv).PQfnumber rs.result name = Int.ofNat i := by
      simp only [libpq, hr, documented.PQfnumber, hplain.1, if_false]
      rw [fold_field_name_plain name.data hplain.2]
      have := first_field_nodup name r.attDescs i 0 hd hname
      simpa using this
    have hw : i < r.attDescs.length := by
      simpa [PostgreSQLResultSet.width, libpq, hr, documented.PQnfields] using hi
    have hh : row < r.tuples.length := by
      simpa [PostgreSQLResultSet.height, libpq, hr, documented.PQntuples] using hrow
    refine ⟨hnum, ?_, ?_, ?_⟩
    · simp only [PostgreSQLResultSet.get, std_string, hnum]
    · simp only [PostgreSQLResultSet.get, std_string, hnum]
      simp [libpq, hr, documented.PQgetvalue, documented.tuple_in_range,
        documented.field_in_range, hw, hh]
    · simp only [PostgreSQLResultSet.is_null_at, hnum]

/-- The field `foo` of the result 11 on the demo server is addressed by its
name. -/
theorem get_resolves_plain_name_witness :
    (libpq demo).PQfnumber 11 "foo" = Int.ofNat 0 ∧
    PostgreSQLResultSet.get (libpq demo) ⟨11⟩ 0 "foo" =
      (libpq demo).PQgetvalue 11 (Int.ofNat 0) (Int.ofNat 0) ∧
    (PostgreSQLResultSet.get (libpq demo) ⟨11⟩ 0 "foo").isSome = true ∧
    PostgreSQLResultSet.is_null_at (libpq demo) ⟨11⟩ 0 "foo" =
      decide ((libpq demo).PQgetisnull 11 (Int.ofNat 0) (Int.ofNat 0) ≠ 0) :=
  get_resolves_plain_name demo ⟨11⟩ ["foo", "BAR", "n"] 0 0 "foo"
    (by decide) (by decide) (by decide) (by decide) (by decide) (by decide)

/-- C5 at the failing input, on the demo server: the names of the result 11
are pairwise distinct and `columns()[1]` is `BAR`, yet `PQfnumber` does not
find `BAR`, `get(0, "BAR")` builds its string from the null pointer
`PQgetvalue(result, 0, -1)` although the cell holds `2`, and
`is_null_at(0, "BAR")` says null although the cell is not. -/
theorem get_misses_upper_case_name :
    PostgreSQLResultSet.columns (libpq demo) ⟨11⟩ = some ["foo", "BAR", "n"] ∧
    ["foo", "BAR", "n"].Nodup ∧
    0 < PostgreSQLResultSet.height (libpq demo) ⟨11⟩ ∧
    1 < PostgreSQLResultSet.width (libpq demo) ⟨11⟩ ∧
    (libpq demo).PQfnumber 11 "BAR" = -1 ∧
    (libpq demo).PQgetvalue 11 0 1 = some "2" ∧
    PostgreSQLResultSet.get (libpq demo) ⟨11⟩ 0 "BAR" = none ∧
    (libpq demo).PQgetisnull 11 0 1 = 0 ∧
    PostgreSQLResultSet.is_null_at (libpq demo) ⟨11⟩ 0 "BAR" = true := by
  decide

/-! ## `sanitize` over libpq as documented -/

/-- A byte with the high bit is no zero, no single quote and no backslash. -/
theorem highbit_not_special (c : Char) (h : documented.IS_HIGHBIT_SET c = true) :
    c ≠ NUL ∧ c ≠ QUOTE ∧ c ≠ BACKSLASH := by
  refine ⟨?_, ?_, ?_⟩ <;>
  · intro e
    subst e
    revert h
    decide

/-- Over libpq as documented, `sanitize` on a session, when the array fits the
stack, returns the escaped chars without the terminating zero, or the
sentinel when the escaping reports an error. -/
theorem sanitize_libpq (srv : Server) (stack : Nat) (self : PostgreSQLConnection)
    (s : String) (hconn : self.priv.conn ≠ 0) (hfit : max_len s ≤ stack) :
    self.sanitize (libpq srv) stack s =
      if (documented.escape_chars (!srv.std_strings) srv.client_encoding s.length
          s.length 0 0 s.data).2 = 0 then
        some ⟨(documented.escape_chars (!srv.std_strings) srv.client_encoding
          s.length s.length 0 0 s.data).1⟩
      else some UNKNOWN_ERROR := by
  have h : ¬ stack < max_len s := by omega
  simp [PostgreSQLConnection.sanitize, libpq, documented.PQescapeStringConn, hconn,
    h, std_string_n]

/-- In a single-byte encoding libpq takes every text for whole characters. -/
theorem whole_chars_single_byte (encoding : Encoding) (h : encoding ≠ .UTF8) :
    ∀ (s : List Char), whole_chars encoding 0 s = true := by
  have hm : ∀ c, documented.pg_encoding_mblen encoding c - 1 = 0 := by
    intro c
    cases encoding <;> simp [documented.pg_encoding_mblen] at h ⊢
  intro s
  induction s with
  | nil => rfl
  | cons c t ih =>
    by_cases hh : documented.IS_HIGHBIT_SET c = true
    · simp [whole_chars, hh, hm, ih]
    · simp [whole_chars, hh, ih]

/-- In legal UTF-8 libpq finds whole characters. -/
theorem legal_utf8_whole :
    ∀ (s : List Char) (pending lo hi : Nat), (0 < pending → 128 ≤ lo) →
      legal_utf8 pending lo hi s = true →
      whole_chars .UTF8 pending s = true := by
  intro s
  induction s with
  | nil =>
    intro pending lo hi _ h
    cases pending with
    | zero => rfl
    | succ q => simp [legal_utf8] at h
  | cons c t ih =>
    intro pending lo hi hlo h
    cases pending with
    | succ q =>
      simp only [legal_utf8, Bool.and_eq_true, decide_eq_true_eq] at h
      have hl := hlo (by omega)
      have hhigh : documented.IS_HIGHBIT_SET c = true := by
        simp only [documented.IS_HIGHBIT_SET, decide_eq_true_eq]
        omega
      simp only [whole_chars, Bool.and_eq_true]
      exact ⟨hhigh, ih q 128 191 (fun _ => Nat.le_refl _) h.2⟩
    | zero =>
      unfold legal_utf8 at h
      by_cases h0 : c.toNat < 128
      · have hhigh : documented.IS_HIGHBIT_SET c = false := by
          simp only [documented.IS_HIGHBIT_SET, decide_eq_false_iff_not]
          omega
        simp only [h0, if_true] at h
        simp only [whole_chars, hhigh, Bool.false_eq_true, if_false]
        exact ih 0 0 0 (fun hp => absurd hp (by omega)) h
      · have hhigh : documented.IS_HIGHBIT_SET c = true := by
          simp only [documented.IS_HIGHBIT_SET, decide_eq_true_eq]
          omega
        simp only [h0, if_false] at h
        simp only [whole_chars, hhigh, if_true]
        split at h
        · rename_i h1
          have hm : documented.pg_encoding_mblen .UTF8 c - 1 = 1 := by
            simp only [documented.pg_encoding_mblen, h0, if_false]
            rw [if_pos (by omega)]
          rw [hm]
          exact ih 1 128 191 (fun _ => Nat.le_refl _) h
        · rename_i h1
          have hm3 : ∀ (_ : 224 ≤ c.toNat ∧ c.toNat < 240),
              documented.pg_encoding_mblen .UTF8 c - 1 = 2 := by
            intro hr
            simp only [documented.pg_encoding_mblen, h0, if_false]
            rw [if_neg (by omega), if_pos hr]
          have hm4 : ∀ (_ : 240 ≤ c.toNat ∧ c.toNat < 248),
              documented.pg_encoding_mblen .UTF8 c - 1 = 3 := by
            intro hr
            simp only [documented.pg_encoding_mblen, h0, if_false]
            rw [if_neg (by omega), if_neg (by omega), if_pos hr]
          split at h
          · rw [hm3 (by omega)]
            exact ih 2 160 191 (fun _ => by omega) h
          · split at h
            · rw [hm3 (by omega)]
              exact ih 2 128 159 (fun _ => by omega) h
            · split at h
              · rw [hm3 (by omega)]
                exact ih 2 128 191 (fun _ => by omega) h
              · split at h
                · rw [hm4 (by omega)]
                  exact ih 3 144 191 (fun _ => by omega) h
                · split at h
                  · rw [hm4 (by omega)]
                    exact ih 3 128 191 (fun _ => by omega) h
                  · split at h
                    · rw [hm4 (by omega)]
                      exact ih 3 128 143 (fun _ => by omega) h
                    · exact absurd h (by simp)

/-- In valid text of the encoding libpq finds whole characters. -/
theorem well_encoded_whole (encoding : Encoding) (s : String)
    (h : well_encoded encoding s) : whole_chars encoding 0 s.data = true := by
  cases encoding with
  | UTF8 => exact legal_utf8_whole s.data 0 0 0 (fun hp => absurd hp (by omega)) h
  | SQL_ASCII => exact whole_chars_single_byte _ (by decide) _
  | LATIN1 => exact whole_chars_single_byte _ (by decide) _

/-- The server reads the escaped chars of a text of whole characters without
zero, closed by a single quote, back as the text, and the escaping reports no
error. -/
theorem read_escape_chars (std_strings : Bool) (encoding : Encoding) (length : Nat) :
    ∀ (source : List Char) (remaining pending written : Nat),
      source.length ≤ remaining → NUL ∉ source →
      whole_chars encoding pending source = true →
      (documented.escape_chars (!std_strings) encoding length remaining pending
        written source).2 = 0 ∧
      documented.read_constant std_strings .text
        ((documented.escape_chars (!std_strings) encoding length remaining pending
          written source).1 ++ [QUOTE]) = some source := by
  intro source
  induction source with
  | nil =>
    intro remaining pending written _ _ hwhole
    cases pending with
    | succ p => simp [whole_chars] at hwhole
    | zero =>
      cases remaining <;>
        simp [documented.escape_chars, documented.escape_end, documented.read_constant]
  | cons c t ih =>
    intro remaining pending written hlen hnul hwhole
    have hc : c ≠ NUL := fun e => hnul (e ▸ List.mem_cons_self c t)
    have ht : NUL ∉ t := fun h => hnul (List.mem_cons_of_mem c h)
    cases remaining with
    | zero => simp at hlen
    | succ r =>
      have hr : t.length ≤ r := by simpa using hlen
      cases pending with
      | succ p =>
        simp only [whole_chars, Bool.and_eq_true] at hwhole
        obtain ⟨hq1, hq2, hq3⟩ := highbit_not_special c hwhole.1
        obtain ⟨h1, h2⟩ := ih r p (written + 1) hr ht hwhole.2
        simp [documented.escape_chars, hc, documented.read_constant, hq2, hq3, h1, h2]
      | zero =>
        by_cases hh : documented.IS_HIGHBIT_SET c = true
        · simp only [whole_chars, hh, if_true] at hwhole
          obtain ⟨hq1, hq2, hq3⟩ := highbit_not_special c hh
          obtain ⟨h1, h2⟩ := ih r _ (written + 1) hr ht hwhole
          simp [documented.escape_chars, hc, hh, documented.read_constant, hq2, hq3,
            h1, h2]
        · simp only [whole_chars, hh, if_false] at hwhole
          by_cases hq : c = QUOTE
          · subst hq
            obtain ⟨h1, h2⟩ := ih r 0 (written + 2) hr ht hwhole
            simp [documented.escape_chars, hc, hh, documented.SQL_STR_DOUBLE,
              documented.read_constant, h1, h2]
          · by_cases hb : c = BACKSLASH
            · subst hb
              have hesc : documented.backslash_escape BACKSLASH = some BACKSLASH := by
                decide
              cases std_strings
              · obtain ⟨h1, h2⟩ := ih r 0 (written + 2) hr ht hwhole
                simp only [Bool.not_false] at h1 h2
                simp [documented.escape_chars, hc, hh, documented.SQL_STR_DOUBLE,
                  documented.read_constant, hq, hesc, h1, h2]
              · obtain ⟨h1, h2⟩ := ih r 0 (written + 1) hr ht hwhole
                simp only [Bool.not_true] at h1 h2
                simp [documented.escape_chars, hc, hh, documented.SQL_STR_DOUBLE,
                  documented.read_constant, hq, h1, h2]
            · obtain ⟨h1, h2⟩ := ih r 0 (written + 1) hr ht hwhole
              simp [documented.escape_chars, hc, hh, documented.SQL_STR_DOUBLE,
                documented.read_constant, hq, hb, h1, h2]

/-- When the escaping reports no error and writes neither a single quote nor a
backslash, what it writes is the source up to its first zero. -/
theorem escape_chars_unchanged (escape_backslash : Bool) (encoding : Encoding)
    (length : Nat) :
    ∀ (source : List Char) (remaining pending written : Nat),
      source.length ≤ remaining →
      (documented.escape_chars escape_backslash encoding length remaining pending
        written source).2 = 0 →
      QUOTE ∉ (documented.escape_chars escape_backslash encoding length remaining
        pending written source).1 →
      BACKSLASH ∉ (documented.escape_chars escape_backslash encoding length
        remaining pending written source).1 →
      (documented.escape_chars escape_backslash encoding length remaining pending
        written source).1 = source.takeWhile (fun c => c ≠ NUL) := by
  intro source
  induction source with
  | nil =>
    intro remaining pending written _ herr _ _
    cases pending with
    | succ p =>
      cases remaining <;>
        simp [documented.escape_chars, documented.escape_end] at herr
    | zero =>
      cases remaining <;> simp [documented.escape_chars, documented.escape_end]
  | cons c t ih =>
    intro remaining pending written hlen herr hq hb
    cases remaining with
    | zero => simp at hlen
    | succ r =>
      have hr : t.length ≤ r := by simpa using hlen
      by_cases hc : c = NUL
      · subst hc
        cases pending with
        | succ p => simp [documented.escape_chars, documented.escape_end] at herr
        | zero => simp [documented.escape_chars, documented.escape_end]
      · cases pending with
        | succ p =>
          simp only [documented.escape_chars, hc, if_false] at herr hq hb ⊢
          simp only [List.mem_cons, not_or] at hq hb
          rw [ih r p (written + 1) hr herr hq.2 hb.2]
          simp [List.takeWhile_cons, hc]
        | zero =>
          by_cases hh : documented.IS_HIGHBIT_SET c = true
          · simp only [documented.escape_chars, hc, hh, if_false, if_true] at herr hq hb ⊢
            simp only [List.mem_cons, not_or] at hq hb
            rw [ih r _ (written + 1) hr herr hq.2 hb.2]
            simp [List.takeWhile_cons, hc]
          · have hh2 : documented.IS_HIGHBIT_SET c = false := by simpa using hh
            by_cases hd : documented.SQL_STR_DOUBLE c escape_backslash = true
            · simp only [documented.escape_chars, hc, hh2, hd, if_false, if_true,
                Bool.false_eq_true] at hq hb
              simp only [List.mem_cons, not_or] at hq hb
              simp only [documented.SQL_STR_DOUBLE, decide_eq_true_eq] at hd
              rcases hd with hd | hd
              · exact absurd hd.symm hq.1
              · exact absurd hd.1.symm hb.1
            · have hd2 : documented.SQL_STR_DOUBLE c escape_backslash = false := by
                simpa using hd
              simp only [documented.escape_chars, hc, hh2, hd2, if_false,
                Bool.false_eq_true] at herr hq hb ⊢
              simp only [List.mem_cons, not_or] at hq hb
              rw [ih r 0 (written + 1) hr herr hq.2 hb.2]
              simp [List.takeWhile_cons, hc]

/-- A source that, up to its first zero, holds only bytes without the high
bit that are no single quote and no backslash is written as it is, without
error. -/
theorem escape_chars_plain (escape_backslash : Bool) (encoding : Encoding)
    (length : Nat) :
    ∀ (source : List Char) (remaining written : Nat),
      source.length ≤ remaining →
      (∀ c ∈ source.takeWhile (fun c => c ≠ NUL),
        documented.IS_HIGHBIT_SET c = false ∧ c ≠ QUOTE ∧ c ≠ BACKSLASH) →
      documented.escape_chars escape_backslash encoding length remaining 0 written
        source = (source.takeWhile (fun c => c ≠ NUL), 0) := by
  intro source
  induction source with
  | nil =>
    intro remaining written _ _
    cases remaining <;> simp [documented.escape_chars, documented.escape_end]
  | cons c t ih =>
    intro remaining written hlen hplain
    cases remaining with
    | zero => simp at hlen
    | succ r =>
      have hr : t.length ≤ r := by simpa using hlen
      by_cases hc : c = NUL
      · subst hc
        simp [documented.escape_chars, documented.escape_end]
      · have htw : (c :: t).takeWhile (fun c => c ≠ NUL) =
            c :: t.takeWhile (fun c => c ≠ NUL) := by
          simp [List.takeWhile_cons, hc]
        rw [htw] at hplain ⊢
        obtain ⟨h1, h2, h3⟩ := hplain c (List.mem_cons_self _ _)
        have ht := ih r (written + 1) hr (fun d hd => hplain d (List.mem_cons_of_mem _ hd))
        simp [documented.escape_chars, hc, h1, h2, h3, documented.SQL_STR_DOUBLE, ht]

/-- The padding keeps the target within twice `length`. -/
theorem pad_spaces_length (length : Nat) :
    ∀ (pending written : Nat), written ≤ 2 * length →
      written + (documented.pad_spaces length pending written).length ≤ 2 * length := by
  intro pending
  induction pending with
  | zero => intro written h; simpa [documented.pad_spaces] using h
  | succ p ih =>
    intro written h
    by_cases hw : length ≤ written / 2
    · simpa [documented.pad_spaces, hw] using h
    · have := ih (written + 1) (by omega)
      simp only [documented.pad_spaces, hw, if_false, List.length_cons]
      omega

/-- The escaping writes at most twice `length` chars. -/
theorem escape_chars_length (escape_backslash : Bool) (encoding : Encoding)
    (length : Nat) :
    ∀ (source : List Char) (remaining pending written : Nat),
      written + 2 * remaining ≤ 2 * length →
      written + (documented.escape_chars escape_backslash encoding length remaining
        pending written source).1.length ≤ 2 * length := by
  have hend : ∀ pending written, written ≤ 2 * length →
      written + (documented.escape_end length pending written).1.length ≤ 2 * length := by
    intro pending written h
    unfold documented.escape_end
    split
    · simpa using h
    · exact pad_spaces_length length pending written h
  intro source
  induction source with
  | nil =>
    intro remaining pending written h
    cases remaining <;> simp only [documented.escape_chars] <;>
      exact hend pending written (by omega)
  | cons c t ih =>
    intro remaining pending written h
    cases remaining with
    | zero =>
      simp only [documented.escape_chars]
      exact hend pending written (by omega)
    | succ r =>
      cases pending with
      | succ p =>
        simp only [documented.escape_chars]
        split
        · exact hend (p + 1) written (by omega)
        · have := ih r p (written + 1) (by omega)
          simp only [List.length_cons]
          omega
      | zero =>
        simp only [documented.escape_chars]
        split
        · exact hend 0 written (by omega)
        · split
          · have := ih r (documented.pg_encoding_mblen encoding c - 1) (written + 1)
              (by omega)
            simp only [List.length_cons]
            omega
          · split
            · have := ih r 0 (written + 2) (by omega)
              simp only [List.length_cons]
              omega
            · have := ih r 0 (written + 1) (by omega)
              simp only [List.length_cons]
              omega

/-- What libpq writes, the terminating zero included, fits the array of
`sanitize`. -/
theorem escape_fits_buffer (srv : Server) (conn : Nat) (input : String) :
    ((libpq srv).PQescapeStringConn conn input input.length).buffer.length ≤
      max_len input := by
  by_cases h : conn = 0
  · subst h
    show (String.mk [NUL]).length ≤ max_len input
    simp only [max_len, String.length, List.length_singleton]
    omega
  · have := escape_chars_length (!srv.std_strings) srv.client_encoding input.length
      input.data input.length 0 0 (by omega)
    simp only [libpq, documented.PQescapeStringConn, h, if_false, max_len]
    show ((documented.escape_chars (!srv.std_strings) srv.client_encoding input.length
      input.length 0 0 input.data).1 ++ [NUL]).length ≤ input.length * 2 + 1
    rw [List.length_append, List.length_singleton]
    omega

/-- C8, amended: over libpq as documented, with the client encoding
SQL_ASCII, LATIN1 or UTF8, for every string `s` that holds no zero char and
is valid text of the encoding, on which escaping succeeds and for which
`sanitize` returns `r`, the server reads `r` between single quotes back as
exactly `s`, whether `standard_conforming_strings` is on or off. -/
theorem sanitize_round_trip (srv : Server) (stack : Nat)
    (self : PostgreSQLConnection) (s r : String)
    (hret : self.sanitize (libpq srv) stack s = some r)
    (hok : ((libpq srv).PQescapeStringConn self.priv.conn s s.length).error = 0)
    (hnul : NUL ∉ s.data) (hwell : well_encoded srv.client_encoding s) :
    srv.read (string_constant r) = some s := by
  have hconn : self.priv.conn ≠ 0 := by
    intro h
    simp [libpq, documented.PQescapeStringConn, h] at hok
  have hfit : max_len s ≤ stack := by
    by_contra h
    have hk := (sanitize_killed_iff (libpq srv) stack self s).mpr (by omega)
    rw [hk] at hret
    exact Option.noConfusion hret
  obtain ⟨herr, hread⟩ := read_escape_chars srv.std_strings srv.client_encoding
    s.length s.data s.length 0 0 (Nat.le_refl _) hnul
    (well_encoded_whole srv.client_encoding s hwell)
  rw [sanitize_libpq srv stack self s hconn hfit, if_pos herr] at hret
  have hr : r = ⟨(documented.escape_chars (!srv.std_strings) srv.client_encoding
      s.length s.length 0 0 s.data).1⟩ := (Option.some.inj hret).symm
  subst hr
  simp [Server.read, string_constant, hread]

/-- C8, amended, on the demo servers: a UTF8 text with a single quote, a
character of two bytes and a backslash, with `standard_conforming_strings` on
and off. -/
theorem sanitize_round_trip_witness :
    demo.read (string_constant
      ⟨[Char.ofNat 105, QUOTE, QUOTE, Char.ofNat 195, Char.ofNat 169, BACKSLASH]⟩) =
      some ⟨[Char.ofNat 105, QUOTE, Char.ofNat 195, Char.ofNat 169, BACKSLASH]⟩ ∧
    demo_legacy.read (string_constant
      ⟨[Char.ofNat 105, QUOTE, QUOTE, Char.ofNat 195, Char.ofNat 169, BACKSLASH,
        BACKSLASH]⟩) =
      some ⟨[Char.ofNat 105, QUOTE, Char.ofNat 195, Char.ofNat 169, BACKSLASH]⟩ :=
  ⟨sanitize_round_trip demo demo_stack demo_connection
      ⟨[Char.ofNat 105, QUOTE, Char.ofNat 195, Char.ofNat 169, BACKSLASH]⟩ _
      (by decide) (by decide) (by decide) (by decide),
   sanitize_round_trip demo_legacy demo_stack demo_connection
      ⟨[Char.ofNat 105, QUOTE, Char.ofNat 195, Char.ofNat 169, BACKSLASH]⟩ _
      (by decide) (by decide) (by decide) (by decide)⟩

/-- C8 as stated fails on the demo server, in two ways.  The string of a single
quote, a zero char and a backslash is escaped without error to two single
quotes, which the server reads back as one single quote.  The string of a
backslash, the byte c3 and a single quote is escaped without error to itself,
the quote being taken for the second byte of a UTF8 character, and the server
does not read it back as a string constant at all. -/
theorem sanitize_round_trip_fails :
    (((libpq demo).PQescapeStringConn demo_connection.priv.conn
        ⟨[QUOTE, NUL, BACKSLASH]⟩ (String.length ⟨[QUOTE, NUL, BACKSLASH]⟩)).error = 0 ∧
      demo_connection.sanitize (libpq demo) demo_stack ⟨[QUOTE, NUL, BACKSLASH]⟩ =
        some ⟨[QUOTE, QUOTE]⟩ ∧
      demo.read (string_constant ⟨[QUOTE, QUOTE]⟩) = some ⟨[QUOTE]⟩ ∧
      demo.read (string_constant ⟨[QUOTE, QUOTE]⟩) ≠ some ⟨[QUOTE, NUL, BACKSLASH]⟩) ∧
    (((libpq demo).PQescapeStringConn demo_connection.priv.conn
        ⟨[BACKSLASH, Char.ofNat 195, QUOTE]⟩
        (String.length ⟨[BACKSLASH, Char.ofNat 195, QUOTE]⟩)).error = 0 ∧
      NUL ∉ [BACKSLASH, Char.ofNat 195, QUOTE] ∧
      demo_connection.sanitize (libpq demo) demo_stack
        ⟨[BACKSLASH, Char.ofNat 195, QUOTE]⟩ =
        some ⟨[BACKSLASH, Char.ofNat 195, QUOTE]⟩ ∧
      demo.read (string_constant ⟨[BACKSLASH, Char.ofNat 195, QUOTE]⟩) = none ∧
      demo.read (string_constant ⟨[BACKSLASH, Char.ofNat 195, QUOTE]⟩) ≠
        some ⟨[BACKSLASH, Char.ofNat 195, QUOTE]⟩) := by
  decide

/-- C9, amended: over libpq as documented, for every input on which escaping
succeeds, `sanitize` returns `<UNKNOWN ERROR>` exactly when its array fits the
stack and the input, read as a C string, is itself `<UNKNOWN ERROR>`; for
every other such input what it returns differs from the sentinel. -/
theorem sanitize_sentinel_iff (srv : Server) (stack : Nat)
    (self : PostgreSQLConnection) (s : String)
    (hok : ((libpq srv).PQescapeStringConn self.priv.conn s s.length).error = 0) :
    self.sanitize (libpq srv) stack s = some "<UNKNOWN ERROR>" ↔
      (max_len s ≤ stack ∧ c_str s = "<UNKNOWN ERROR>") := by
  have hconn : self.priv.conn ≠ 0 := by
    intro h
    simp [libpq, documented.PQescapeStringConn, h] at hok
  have herr : (documented.escape_chars (!srv.std_strings) srv.client_encoding
      s.length s.length 0 0 s.data).2 = 0 := by
    simpa [libpq, documented.PQescapeStringConn, hconn] using hok
  by_cases hfit : max_len s ≤ stack
  · rw [sanitize_libpq srv stack self s hconn hfit, if_pos herr]
    constructor
    · intro h
      have hchars : (documented.escape_chars (!srv.std_strings) srv.client_encoding
          s.length s.length 0 0 s.data).1 = "<UNKNOWN ERROR>".data :=
        congrArg String.data (Option.some.inj h)
      have hsame := escape_chars_unchanged (!srv.std_strings) srv.client_encoding
        s.length s.data s.length 0 0 (Nat.le_refl _) herr
        (by rw [hchars]; decide) (by rw [hchars]; decide)
      refine ⟨hfit, ?_⟩
      simp only [c_str]
      rw [← hsame, hchars]
    · intro h
      have hchars : s.data.takeWhile (fun c => c ≠ NUL) = "<UNKNOWN ERROR>".data :=
        congrArg String.data h.2
      have hplain := escape_chars_plain (!srv.std_strings) srv.client_encoding
        s.length s.data s.length 0 (Nat.le_refl _) (by rw [hchars]; decide)
      rw [hplain, hchars]
  · have hk := (sanitize_killed_iff (libpq srv) stack self s).mpr (by omega)
    rw [hk]
    constructor
    · intro h
      exact Option.noConfusion h
    · intro h
      exact absurd h.1 hfit

/-- C9, amended, on the demo server: `SELECT 1` is escaped to itself, not to
the sentinel. -/
theorem sanitize_sentinel_iff_witness :
    demo_connection.sanitize (libpq demo) demo_stack "SELECT 1" =
        some "<UNKNOWN ERROR>" ↔
      (max_len "SELECT 1" ≤ demo_stack ∧ c_str "SELECT 1" = "<UNKNOWN ERROR>") :=
  sanitize_sentinel_iff demo demo_stack demo_connection "SELECT 1" (by decide)

/-- C9 as stated fails on the demo server: the input `<UNKNOWN ERROR>` is
escaped without error and `sanitize` returns the sentinel for it. -/
theorem sanitize_of_sentinel_is_sentinel :
    ((libpq demo).PQescapeStringConn demo_connection.priv.conn
      "<UNKNOWN ERROR>" ("<UNKNOWN ERROR>".length)).error = 0 ∧
    demo_connection.sanitize (libpq demo) demo_stack "<UNKNOWN ERROR>" =
      some "<UNKNOWN ERROR>" ∧
    demo_connection.sanitize (libpq demo) demo_stack "<UNKNOWN ERROR>" =
      some UNKNOWN_ERROR := by
  decide

end persistence
